import Mathlib

/-!
Verification of the blog search/recommendation service core
(`services/search_service.py`, `services/llm_service.py`, `api/main.py`,
`config/prompts.py`) through a shallow embedding in Lean 4.

JSON-like dynamic values are modelled by `Val`; Python dictionaries by
association lists with unique keys (`PyDict`), and the handful of dict
operations the code uses (`dict(d)` copy, `setdefault`, `pop`, item
assignment, `in`, `.get`) are given their Python semantics.  Machine-level
aspects (the network clients, logging) are abstracted: the Elasticsearch
client and the completion backend appear as explicit function parameters,
and every code path that can raise is modelled with `Option`/`Except`.
-/

/-- Dynamic JSON-like values flowing through the service layers
(Python dict/list/str/int/bool/None payloads).  Floats are not used by any
verified path and are omitted from the model. -/
inductive Val where
  | null
  | boolV (b : Bool)
  | intV (n : Int)
  | strV (s : String)
  | arrV (xs : List Val)
  | objV (fields : List (String × Val))

/-- A Python dict with `String` keys: an association list in insertion
order.  Real dicts have unique keys; theorems that depend on uniqueness
take it as an explicit hypothesis. -/
abbrev PyDict := List (String × Val)

/-- `d[k]` / `d.get(k)`: first binding of `k` (dicts hold at most one). -/
def pyLookup : PyDict → String → Option Val
  | [], _ => none
  | (k0, v0) :: rest, k => if k0 = k then some v0 else pyLookup rest k

/-- `k in d`. -/
def pyContains (d : PyDict) (k : String) : Bool :=
  (pyLookup d k).isSome

/-- `d.get(k, default)`. -/
def pyGetD (d : PyDict) (k : String) (default : Val) : Val :=
  (pyLookup d k).getD default

/-- `d[k] = v`: replace in place if the key exists (keeping its position,
as CPython does), otherwise append at the end. -/
def pyAssign : PyDict → String → Val → PyDict
  | [], k, v => [(k, v)]
  | (k0, v0) :: rest, k, v =>
      if k0 = k then (k0, v) :: rest else (k0, v0) :: pyAssign rest k v

/-- `d.setdefault(k, v)`: append `(k, v)` only when `k` is absent. -/
def pySetdefault (d : PyDict) (k : String) (v : Val) : PyDict :=
  if pyContains d k then d else d ++ [(k, v)]

/-- `d.pop(k, None)` preceded by an `in` guard: drop the binding of `k`. -/
def pyPopKey (d : PyDict) (k : String) : PyDict :=
  d.filter (fun kv => kv.1 ≠ k)

/-! ## Search Executor — `SearchService.search` (services/search_service.py:100-140)

The body preparation and effective-size resolution:

    body = dict(query)  # shallow copy to avoid side effects
    body.setdefault("track_total_hits", True)
    if "size" not in body:
        body_size = size
    else:
        body_size = body["size"]
    response = self.es_client.search(index=index, body=body, size=body_size)
-/

/-- The effective request body and effective size argument sent to the
engine by `SearchService.search(index, query, size)`. -/
def searchPrep (query : PyDict) (size : Int) : PyDict × Val :=
  let body := pySetdefault query ("track_total_hits") (Val.boolV true)
  let body_size :=
    if pyContains body ("size") = false then Val.intV size
    else (pyLookup body ("size")).getD (Val.intV size)
  (body, body_size)

/-- Per-hit formatting in `SearchService.search` (lines 116-127):

    src = dict(h.get("_source", {}) or {})
    src["__meta"] = {"id": h.get("_id"), "index": h.get("_index"),
                     "score": h.get("_score"), "highlight": h.get("highlight"),
                     "sort": h.get("sort")}

A missing or falsy `_source` yields `{}`; the model restricts `_source`
to dict values (the engine's shape), treating anything else as `{}`. -/
def formatHit (h : PyDict) : PyDict :=
  let src : PyDict :=
    match pyLookup h ("_source") with
    | some (Val.objV d) => d
    | _ => []
  pyAssign src ("__meta") (Val.objV [
    ("id", pyGetD h ("_id") Val.null),
    ("index", pyGetD h ("_index") Val.null),
    ("score", pyGetD h ("_score") Val.null),
    ("highlight", pyGetD h ("highlight") Val.null),
    ("sort", pyGetD h ("sort") Val.null)])

/-! ## Orchestration endpoints (api/main.py)

`natural_search` (lines 169-178) forwards the refined request minus its
`index` key; `elasticsearch_search` (lines 250-257) pops a body `size`
before forwarding, preferring the URL-level size.
-/

/-- `es_query = {k: v for k, v in refined_query.items() if k != "index"}`. -/
def extractEsQuery (refined : PyDict) : PyDict :=
  refined.filter (fun kv => kv.1 ≠ ("index"))

/-- Effective body/size sent to the engine on the natural-language path:
`search_service.search(index, es_query, request.size)`. -/
def naturalSearchSent (refined : PyDict) (size : Int) : PyDict × Val :=
  searchPrep (extractEsQuery refined) size

/-- Body forwarded by the direct endpoint:

    body = dict(query)
    if "size" in body:
        body.pop("size", None)
-/
def elasticsearchSearchBody (query : PyDict) : PyDict :=
  if pyContains query ("size") then pyPopKey query ("size") else query

/-- Effective body/size sent to the engine by the direct endpoint:
`search_service.search(index, body, size)`. -/
def elasticsearchSearchSent (query : PyDict) (size : Int) : PyDict × Val :=
  searchPrep (elasticsearchSearchBody query) size

/-! ## Heap model for the frame property of `SearchService.search`

`dict(query)` allocates a fresh dict; all subsequent writes target the
copy.  A heap is a list of dict cells addressed by index. -/

abbrev Heap := List PyDict

/-- Read the dict stored at address `a`. -/
def heapGet (h : Heap) (a : Nat) : PyDict :=
  (h[a]?).getD []

/-- `dict(·)` at address `a`: allocate a fresh cell holding a copy. -/
def heapAllocCopy (h : Heap) (a : Nat) : Heap × Nat :=
  (h ++ [heapGet h a], h.length)

/-- `d.setdefault(k, v)` performed on the cell at address `a`. -/
def heapSetdefault (h : Heap) (a : Nat) (k : String) (v : Val) : Heap :=
  h.set a (pySetdefault (heapGet h a) k v)

/-- The body-preparation steps of `SearchService.search` acting on the
heap: copy the caller's dict, default `track_total_hits` on the copy,
resolve the effective size from the copy.  Returns the final heap, the
address of the copy, and the effective size.  (The remainder of `search`
only reads the engine response and allocates fresh result dicts; it never
writes to `query`.) -/
def searchBodyPrepHeap (h : Heap) (query : Nat) (size : Int) : Heap × Nat × Val :=
  let alloc := heapAllocCopy h query
  let h1 := alloc.1
  let body := alloc.2
  let h2 := heapSetdefault h1 body ("track_total_hits") (Val.boolV true)
  let body_size :=
    if pyContains (heapGet h2 body) ("size") = false then Val.intV size
    else (pyLookup (heapGet h2 body) ("size")).getD (Val.intV size)
  (h2, body, body_size)

/-! ## Character/string primitives with Python semantics

Text is modelled as `List Char`.  Brace, quote, backslash and backtick
characters are named to keep literals readable. -/

def obChar : Char := Char.ofNat 123

def cbChar : Char := Char.ofNat 125

def qChar : Char := Char.ofNat 34

def bsChar : Char := Char.ofNat 92

def btChar : Char := Char.ofNat 96

/-- `pat` is a prefix of `s`. -/
def isPre : List Char → List Char → Bool
  | [], _ => true
  | _ :: _, [] => false
  | p :: ps, c :: cs => p = c && isPre ps cs

/-- `pat` is a suffix of `s`. -/
def isSuf (pat s : List Char) : Bool :=
  isPre pat.reverse s.reverse

/-- Python `pat in s` (substring containment). -/
def containsSub (s pat : List Char) : Bool :=
  match s with
  | [] => isPre pat []
  | c :: cs => isPre pat (c :: cs) || containsSub cs pat

/-- Index of the first occurrence of character `c`, if any. -/
def pyFindCharNat : List Char → Char → Option Nat
  | [], _ => none
  | c0 :: cs, c => if c0 = c then some 0 else (pyFindCharNat cs c).map (· + 1)

/-- Python `s.find(c)`: first index or `-1`. -/
def pyFindChar (s : List Char) (c : Char) : Int :=
  match pyFindCharNat s c with
  | some n => (n : Int)
  | none => -1

/-- Python `s.rfind(c)`: last index or `-1`. -/
def pyRfindChar (s : List Char) (c : Char) : Int :=
  match pyFindCharNat s.reverse c with
  | some n => ((s.length - 1 - n : Nat) : Int)
  | none => -1

/-- Index of the first occurrence of substring `pat`, if any. -/
def pyFindSubNat : List Char → List Char → Option Nat
  | [], pat => if isPre pat [] then some 0 else none
  | c :: cs, pat =>
      if isPre pat (c :: cs) then some 0 else (pyFindSubNat cs pat).map (· + 1)

/-- Python `s.find(pat)`: first index or `-1`. -/
def pyFindSub (s pat : List Char) : Int :=
  match pyFindSubNat s pat with
  | some n => (n : Int)
  | none => -1

/-- Python `s.find(pat, start)`: search from `start` (negative counts from
the end), `-1` when absent. -/
def pyFindSubFrom (s pat : List Char) (start : Int) : Int :=
  let st : Nat := if start < 0 then (s.length + start).toNat else start.toNat
  match pyFindSubNat (s.drop st) pat with
  | some n => ((st + n : Nat) : Int)
  | none => -1

/-- Python slicing `s[a:b]` with negative-index and clamping semantics. -/
def pySlice (s : List Char) (a b : Int) : List Char :=
  let n : Int := (s.length : Int)
  let a' : Int := if a < 0 then max (n + a) 0 else min a n
  let b' : Int := if b < 0 then max (n + b) 0 else min b n
  (s.drop a'.toNat).take (b'.toNat - a'.toNat)

/-- Whitespace recognised by `strip` and the JSON scanner. -/
def isWsChar (c : Char) : Bool :=
  c = ' ' || c = '\t' || c = '\n' || c = '\r'

/-- Python `s.strip()`. -/
def pyStrip (s : List Char) : List Char :=
  ((s.dropWhile isWsChar).reverse.dropWhile isWsChar).reverse

/-- Python `s.replace(pat, rep)`: left-to-right, non-overlapping; after a
match, scanning resumes past the replacement.  Fuel is the length of `s`
(at least one character is consumed per step). -/
def pyReplaceAux (pat rep : List Char) : Nat → List Char → List Char
  | 0, s => s
  | _ + 1, [] => []
  | fuel + 1, c :: cs =>
      if !pat.isEmpty && isPre pat (c :: cs) then
        rep ++ pyReplaceAux pat rep fuel ((c :: cs).drop pat.length)
      else
        c :: pyReplaceAux pat rep fuel cs

/-- Python `s.replace(pat, rep)`. -/
def pyReplace (s pat rep : List Char) : List Char :=
  pyReplaceAux pat rep s.length s

/-! ## A model of `json.loads` / `json.dumps` over `Val`

The parser is a fuel-bounded recursive descent over the JSON grammar
(objects, arrays, strings with escapes, integers, booleans, null); floats
are outside the model.  `none` models a raised `JSONDecodeError`. -/

/-- Skip JSON whitespace. -/
def skipWs (s : List Char) : List Char :=
  s.dropWhile isWsChar

/-- Translate the character after a backslash in a JSON string literal. -/
def unescapeChar (c : Char) : Char :=
  if c = 'n' then '\n' else if c = 't' then '\t' else if c = 'r' then '\r' else c

/-- Parse the remainder of a JSON string literal (opening quote already
consumed): returns the decoded characters and the rest of the input. -/
def parseStrRestL : List Char → Option (List Char × List Char)
  | [] => none
  | c :: cs =>
      if c = qChar then some ([], cs)
      else if c = bsChar then
        match cs with
        | [] => none
        | e :: cs2 =>
            match parseStrRestL cs2 with
            | some (acc, rest) => some (unescapeChar e :: acc, rest)
            | none => none
      else
        match parseStrRestL cs with
        | some (acc, rest) => some (c :: acc, rest)
        | none => none

/-- Fold decimal digits into a natural number. -/
def digitsToNat : List Char → Nat → Nat
  | [], acc => acc
  | c :: cs, acc => digitsToNat cs (acc * 10 + (c.toNat - 48))

/-- Parse a JSON integer token. -/
def parseIntTok (s : List Char) : Option (Val × List Char) :=
  match s with
  | [] => none
  | c :: cs =>
      if c = '-' then
        let ds := cs.takeWhile Char.isDigit
        if ds.isEmpty then none
        else some (Val.intV (-(digitsToNat ds 0 : Int)), cs.drop ds.length)
      else
        let ds := (c :: cs).takeWhile Char.isDigit
        if ds.isEmpty then none
        else some (Val.intV ((digitsToNat ds 0 : Nat) : Int), (c :: cs).drop ds.length)

mutual

/-- Parse one JSON value. -/
def parseVal : Nat → List Char → Option (Val × List Char)
  | 0, _ => none
  | fuel + 1, s0 =>
      let s := skipWs s0
      match s with
      | [] => none
      | c :: cs =>
          if c = qChar then
            match parseStrRestL cs with
            | some (l, rest) => some (Val.strV (String.mk l), rest)
            | none => none
          else if c = obChar then parseObjRest fuel (skipWs cs)
          else if c = '[' then parseArrRest fuel (skipWs cs)
          else if isPre (("true").toList) s then some (Val.boolV true, s.drop 4)
          else if isPre (("false").toList) s then some (Val.boolV false, s.drop 5)
          else if isPre (("null").toList) s then some (Val.null, s.drop 4)
          else parseIntTok s

/-- Parse the members of a JSON object (opening brace consumed). -/
def parseObjRest : Nat → List Char → Option (Val × List Char)
  | 0, _ => none
  | fuel + 1, s =>
      match s with
      | [] => none
      | c :: cs =>
          if c = cbChar then some (Val.objV [], cs)
          else if c = qChar then
            match parseStrRestL cs with
            | none => none
            | some (kl, r1) =>
                match skipWs r1 with
                | ':' :: r2 =>
                    match parseVal fuel (skipWs r2) with
                    | none => none
                    | some (v, r3) =>
                        match skipWs r3 with
                        | ',' :: r4 =>
                            match parseObjRest fuel (skipWs r4) with
                            | some (Val.objV ms, r5) =>
                                some (Val.objV ((String.mk kl, v) :: ms), r5)
                            | _ => none
                        | c5 :: r5 =>
                            if c5 = cbChar then
                              some (Val.objV [(String.mk kl, v)], r5)
                            else none
                        | [] => none
                | _ => none
          else none

/-- Parse the items of a JSON array (opening bracket consumed). -/
def parseArrRest : Nat → List Char → Option (Val × List Char)
  | 0, _ => none
  | fuel + 1, s =>
      match s with
      | [] => none
      | c :: cs =>
          if c = ']' then some (Val.arrV [], cs)
          else
            match parseVal fuel s with
            | none => none
            | some (v, r1) =>
                match skipWs r1 with
                | ',' :: r2 =>
                    match parseArrRest fuel (skipWs r2) with
                    | some (Val.arrV xs, r3) => some (Val.arrV (v :: xs), r3)
                    | _ => none
                | c2 :: r2 => if c2 = ']' then some (Val.arrV [v], r2) else none
                | [] => none

end

/-- Model of `json.loads`: parse one value, then require only trailing
whitespace.  The fuel bound covers all inputs this development evaluates. -/
def jsonLoads (s : List Char) : Option Val :=
  match parseVal (2 * s.length + 2) s with
  | some (v, rest) => if (skipWs rest).isEmpty then some v else none
  | none => none

/-- JSON string escaping used by the serializer. -/
def escChar (c : Char) : List Char :=
  if c = qChar then [bsChar, qChar]
  else if c = bsChar then [bsChar, bsChar]
  else [c]

/-- Serialize a string with quotes (as `json.dumps` renders keys/strings). -/
def serStr (s : String) : List Char :=
  qChar :: ((s.toList.flatMap escChar) ++ [qChar])

mutual

/-- Canonical JSON text of a value (the shape `json.dumps` produces);
this defines what "a raw completion output that is a JSON object" means
in the doubled-brace claim. -/
def serialize : Val → List Char
  | Val.null => ("null").toList
  | Val.boolV true => ("true").toList
  | Val.boolV false => ("false").toList
  | Val.intV n => (toString n).toList
  | Val.strV s => serStr s
  | Val.arrV xs => '[' :: (serItems xs ++ [']'])
  | Val.objV f => obChar :: (serMembers f ++ [cbChar])

/-- Comma-separated serialization of array items. -/
def serItems : List Val → List Char
  | [] => []
  | x :: xs => serialize x ++ (if xs.isEmpty then [] else (", ").toList) ++ serItems xs

/-- Comma-separated serialization of object members. -/
def serMembers : List (String × Val) → List Char
  | [] => []
  | (k, v) :: rest =>
      serStr k ++ (": ").toList ++ serialize v ++
        (if rest.isEmpty then [] else (", ").toList) ++ serMembers rest

end

/-- Template-escaping artifact: every brace appears doubled (the form the
prompt templates themselves use for literal braces). -/
def doubleAll : List Char → List Char
  | [] => []
  | c :: cs => if c = obChar ∨ c = cbChar then c :: c :: doubleAll cs else c :: doubleAll cs

/-- Only closing braces doubled (intermediate state between the two
`replace` passes of the extractor). -/
def doubleClose : List Char → List Char
  | [] => []
  | c :: cs => if c = cbChar then c :: c :: doubleClose cs else c :: doubleClose cs

/-! ## Structured Extractor — `LLMService._extract_json`
(services/llm_service.py:391-421) -/

def fenceTag : List Char := ("```json").toList

def fenceEnd : List Char := ("```").toList

def ddOpen : List Char := [obChar, obChar]

def ddClose : List Char := [cbChar, cbChar]

/-- The doubled-brace collapse applied before each parse attempt:

    if candidate.startswith("\x7b\x7b") and candidate.endswith("\x7d\x7d"):
        candidate = candidate.replace("\x7b\x7b", "\x7b").replace("\x7d\x7d", "\x7d")
-/
def collapseDoubles (candidate : List Char) : List Char :=
  if isPre ddOpen candidate && isSuf ddClose candidate then
    pyReplace (pyReplace candidate ddOpen [obChar]) ddClose [cbChar]
  else candidate

/-- The widest-brace-span fallback branch of `_extract_json`:

    start = text.find("\x7b"); end = text.rfind("\x7d") + 1
    candidate = text[start:end]
    ...collapse...; return json.loads(candidate)   # except: None
-/
def genericExtract (text : List Char) : Option Val :=
  let start := pyFindChar text obChar
  let stop := pyRfindChar text cbChar + 1
  jsonLoads (collapseDoubles (pySlice text start stop))

/-- `LLMService._extract_json(text)`: `none` for empty input; a fenced
`json` block is tried first (its parse failure falls through); then the
widest brace span. -/
def extractJson (text : List Char) : Option Val :=
  if text.isEmpty then none
  else if containsSub text fenceTag then
    let start := pyFindSub text fenceTag + 7
    let stop := pyFindSubFrom text fenceEnd start
    match jsonLoads (collapseDoubles (pyStrip (pySlice text start stop))) with
    | some v => some v
    | none => genericExtract text
  else genericExtract text

/-! ## Schema Digest — `MappingView` (services/llm_service.py:42-123)

Field maps are association lists `String → String` (field path → type
name), in insertion order like Python dicts. -/

abbrev StrDict := List (String × String)

/-- First binding of `k` in a field map. -/
def strLookup : StrDict → String → Option String
  | [], _ => none
  | (k0, v0) :: rest, k => if k0 = k then some v0 else strLookup rest k

/-- `k in fields`. -/
def strContains (d : StrDict) (k : String) : Bool :=
  (strLookup d k).isSome

/-- `fields.setdefault(k, v)`. -/
def strSetdefault (d : StrDict) (k : String) (v : String) : StrDict :=
  if strContains d k then d else d ++ [(k, v)]

/-- Number of bindings of key `k` (a real dict always has 0 or 1). -/
def countKey (k : String) (d : StrDict) : Nat :=
  d.countP (fun kv => kv.1 == k)

/-- Shallow view over an ES mapping (`MappingView`). -/
structure MappingView where
  fields : StrDict
  preferred_date_field : Option String
  preferred_sort_field : Option String

mutual

/-- Structural size of a value, used as traversal fuel. -/
def valSize : Val → Nat
  | Val.objV f => 1 + memSize f
  | Val.arrV xs => 1 + itemsSize xs
  | _ => 1

/-- Structural size of an object's member list. -/
def memSize : List (String × Val) → Nat
  | [] => 0
  | (_, v) :: rest => 1 + valSize v + memSize rest

/-- Structural size of an array's item list. -/
def itemsSize : List Val → Nat
  | [] => 0
  | v :: rest => 1 + valSize v + itemsSize rest

end

/-- The recursive flattener `walk(prefix, node)` inside
`MappingView.from_file`: nested `properties` are followed with a
dot-qualified path; leaf nodes contribute `prefix + k ↦ type` when they
carry a truthy `type`.  Fuel is structural bookkeeping only; `from_file`
supplies `memSize node`, which bounds the traversal (each step descends
into a strict subvalue or the tail of the list). -/
def walkNodeF : Nat → String → PyDict → StrDict
  | 0, _, _ => []
  | _ + 1, _, [] => []
  | fuel + 1, pre, (k, v) :: rest =>
      (match v with
       | Val.objV vd =>
           if pyContains vd ("properties") then
             match pyLookup vd ("properties") with
             | some (Val.objV sub) => walkNodeF fuel (pre ++ k ++ (".")) sub
             | _ => []
           else
             match pyLookup vd ("type") with
             | some (Val.strV t) => if t = "" then [] else [(pre ++ k, t)]
             | _ => []
       | _ => []) ++ walkNodeF fuel pre rest

/-- `walk("", props)` with adequate fuel. -/
def walkNode (pre : String) (node : PyDict) : StrDict :=
  walkNodeF (memSize node + 1) pre node

/-- `MappingView.from_file`: the file read and JSON parse are modelled by
`content` (`none` = any read/parse failure, which the code turns into
`mapping = {}`); then top-level properties are flattened and the
preferred date/sort fields picked:

    props = (mapping.get("mappings") or {}).get("properties") or {}
    ...walk("", props)...
    date_field: first of [created_at, updated_at] with type "date"
    sort_field: createdTs if long, else created_at/updated_at if date
-/
def from_file (content : Option PyDict) : MappingView :=
  let mapping : PyDict := content.getD []
  let props : PyDict :=
    match pyLookup mapping ("mappings") with
    | some (Val.objV m) =>
        match pyLookup m ("properties") with
        | some (Val.objV p) => p
        | _ => []
    | _ => []
  let flat := walkNode ("") props
  let date_field :=
    if strLookup flat ("created_at") = some ("date") then some ("created_at")
    else if strLookup flat ("updated_at") = some ("date") then some ("updated_at")
    else none
  let sort_field :=
    if strLookup flat ("createdTs") = some ("long") then some ("createdTs")
    else if strLookup flat ("created_at") = some ("date") then some ("created_at")
    else if strLookup flat ("updated_at") = some ("date") then some ("updated_at")
    else none
  ⟨flat, date_field, sort_field⟩

/-- The fixed `preferred_order` list of `MappingView.cheatsheet`. -/
def preferred_order : List String :=
  ["title", "summary", "content", "searchable_content", "author_name", "author_name.keyword",
   "tags", "status", "is_published",
   "createdTs", "created_at", "updated_at",
   "likes", "dislikes", "views",
   "content_length", "summary_length", "engagement_ratio", "tag_count",
   "full_name", "full_name.keyword", "email", "role",
   "engagement_score", "followers", "total_followers", "total_likes", "total_dislikes",
   "total_bookmarks", "total_following",
   "id"]

/-- `preferred_order.index(k) if k in preferred_order else 9999`. -/
def prefRankAux : List String → String → Nat → Nat
  | [], _, _ => 9999
  | p :: ps, k, i => if p = k then i else prefRankAux ps k (i + 1)

/-- Sort rank of a field name. -/
def prefRank (k : String) : Nat :=
  prefRankAux preferred_order k 0

/-- The sort key comparison `(rank, name) ≤ (rank, name)` used by
`sorted(..., key=lambda kv: (pref_index(kv[0]), kv[0]))`. -/
def keyLE (a b : String × String) : Bool :=
  decide (prefRank a.1 < prefRank b.1 ∨ (prefRank a.1 = prefRank b.1 ∧ a.1 ≤ b.1))

/-- Stable insertion: `x` goes before the first element it compares `≤`
to, hence before later elements with an equal key — the placement a
stable sort gives an element that precedes them in the input. -/
def insStable (x : String × String) : List (String × String) → List (String × String)
  | [] => [x]
  | y :: ys => if keyLE x y then x :: y :: ys else y :: insStable x ys

/-- Stable insertion sort; agrees with Python's stable `sorted` for the
total preorder `keyLE`. -/
def sortFields : List (String × String) → List (String × String)
  | [] => []
  | x :: xs => insStable x (sortFields xs)

/-- The mutation performed on `self.fields` by `cheatsheet`:

    if "title" in self.fields:
        self.fields.setdefault("title.keyword", "keyword")
    if "author_name" in self.fields: ...author_name.keyword...
    if "full_name" in self.fields: ...full_name.keyword...
-/
def cheatsheetFields (f0 : StrDict) : StrDict :=
  let f1 := if strContains f0 ("title") then strSetdefault f0 ("title.keyword") ("keyword") else f0
  let f2 := if strContains f1 ("author_name") then strSetdefault f1 ("author_name.keyword") ("keyword") else f1
  let f3 := if strContains f2 ("full_name") then strSetdefault f2 ("full_name.keyword") ("keyword") else f2
  f3

/-- The ordered field list the rendered cheatsheet enumerates. -/
def cheatsheetOrdered (f : StrDict) : StrDict :=
  sortFields (cheatsheetFields f)

/-- `", ".join(...)`. -/
def joinSep (sep : String) : List String → String
  | [] => ""
  | x :: xs => if xs.isEmpty then x else x ++ sep ++ joinSep sep xs

/-- `MappingView.cheatsheet(index_name)`: returns the updated view (the
method mutates `self.fields` in place) together with the rendered row
`f"{index_name} (fields: {preview})"`. -/
def cheatsheet (m : MappingView) (index_name : String) : MappingView × String :=
  let fields := cheatsheetFields m.fields
  let ordered := sortFields fields
  let preview := joinSep (", ") (ordered.map (fun kv => kv.1 ++ (" [") ++ kv.2 ++ ("]")))
  ({ m with fields := fields }, index_name ++ (" (fields: " ++ (preview ++ (")"))))

/-! ## Result Narrator — `LLMService.process_results`
(services/llm_service.py:208-330)

The completion backend is an explicit parameter `backend : String →
Except String String` (`Except.error` models a raised exception from the
chat-completions call).  Exceptions inside the big `try` are modelled by
`Except String`; the `except` clause maps them to the fallback. -/

def sqChar : Char := Char.ofNat 39

/-- Error message `ERROR_MESSAGES["no_results"]` (config/prompts.py). -/
def noResultsMsg : String :=
  "No results were found for your query. Try broadening your search terms or checking for typos."

/-- Error message `ERROR_MESSAGES["llm_error"]` (config/prompts.py). -/
def llmErrorMsg : String :=
  "I encountered an issue processing your request. Please try again with a simpler query."

/-- Python `value[:n]` on a string. -/
def pyTakeStr (s : String) (n : Nat) : String :=
  String.mk (s.toList.take n)

/-- Python `x == 0` (matches `0` and `False`; other modelled values
compare unequal to `0`). -/
def pyEqZero : Val → Bool
  | Val.intV n => n == 0
  | Val.boolV b => !b
  | _ => false

/-- Models `str(value)`; the precise rendering of non-primitive values is
irrelevant to every verified property. -/
def pyStrVal (v : Val) : String :=
  String.mk (serialize v)

/-- `True` for modelled string values. -/
def isStrV : Val → Bool
  | Val.strV _ => true
  | _ => false

/-- Truncate a string list item (`item[:100]`). -/
def truncItem : Val → Val
  | Val.strV s => Val.strV (pyTakeStr s 100)
  | v => v

/-- Field-value cleaning in `process_results` (lines 234-249):
strings truncated to 200, primitives kept, all-string lists truncated to
10 items of 100 chars, everything else stringified and truncated. -/
def cleanValue : Val → Val
  | Val.strV s => Val.strV (if s.length > 200 then pyTakeStr s 200 else s)
  | Val.intV n => Val.intV n
  | Val.boolV b => Val.boolV b
  | Val.arrV xs =>
      if xs.all isStrV then Val.arrV ((xs.take 10).map truncItem)
      else Val.strV (pyTakeStr (pyStrVal (Val.arrV xs)) 100)
  | v => Val.strV (pyTakeStr (pyStrVal v) 100)

/-- Clean one result document (iterating `result.items()`). -/
def cleanResult (r : PyDict) : PyDict :=
  r.map (fun kv => (kv.1, cleanValue kv.2))

/-- Clean the top-5 slice; a non-dict element makes `result.items()`
raise, which the surrounding `try` catches. -/
def cleanedResults : List Val → Except String (List PyDict)
  | [] => Except.ok []
  | Val.objV d :: rest =>
      (cleanedResults rest).map (fun tl => cleanResult d :: tl)
  | _ :: _ => Except.error ("AttributeError: no items method")

/-- `json.dumps(cleaned_results, ...)`; total over modelled values (the
code's own `except`-with-`str()` fallback is unreachable in the model). -/
def dumpsCleaned (cleaned : List PyDict) : String :=
  String.mk (serialize (Val.arrV (cleaned.map Val.objV)))

/-- How an f-string renders the hit count. -/
def displayVal : Val → String
  | Val.intV n => toString n
  | Val.boolV true => "True"
  | Val.boolV false => "False"
  | v => pyStrVal v

/-- `RESULT_PROCESSING_PROMPT.format(...)`: the fixed instructional text
around the three substitution slots is omitted; only the dependence on
the three arguments matters to the verified properties. -/
def mkResultPrompt (original_query results result_count : String) : String :=
  ("Original Query: ") ++ original_query ++ ("\nSearch Results: ") ++ results ++
    ("\nNumber of Results: ") ++ result_count

/-- Response post-processing (lines 282-309): strip, remove one layer of
matching enclosing quotes, collapse doubled quotes, unescape literal
quote/newline/tab sequences. -/
def cleanupAnalysis (raw : String) : String :=
  let a0 := pyStrip raw.toList
  let a1 :=
    if isPre [qChar] a0 && isSuf [qChar] a0 then pySlice a0 1 (-1)
    else if isPre [sqChar] a0 && isSuf [sqChar] a0 then pySlice a0 1 (-1)
    else a0
  let a2 := pyReplace (pyReplace a1 [qChar, qChar] [qChar]) [sqChar, sqChar] [sqChar]
  let a3 := pyReplace a2 [bsChar, qChar] [qChar]
  let a4 := pyReplace a3 [bsChar, 'n'] ['\n']
  let a5 := pyReplace a4 [bsChar, 't'] ['\t']
  String.mk a5

/-- The body of the big `try` in `process_results`: zero-hit early
return, cleaning, serialization, prompt build, model call, cleanup.
`Except.error` is a raised exception reaching the `except` clause. -/
def narrationBody (backend : String → Except String String)
    (original_query : String) (search_results : PyDict) : Except String String :=
  let result_count := pyGetD search_results ("total_hits") (Val.intV 0)
  let resultsV := pyGetD search_results ("results") (Val.arrV [])
  if pyEqZero result_count then Except.ok noResultsMsg
  else
    match resultsV with
    | Val.arrV xs =>
        match cleanedResults (xs.take 5) with
        | Except.error e => Except.error e
        | Except.ok cleaned =>
            let results_json := dumpsCleaned cleaned
            let prompt := mkResultPrompt original_query results_json (displayVal result_count)
            match backend prompt with
            | Except.error e => Except.error e
            | Except.ok raw => Except.ok (cleanupAnalysis raw)
    | _ => Except.error ("TypeError: results is not subscriptable")

/-- The `except` clause (lines 315-330): recompute the hit count and
degrade to a deterministic message; a non-numeric count would make the
`> 0` comparison raise, which the inner `except` maps to
`ERROR_MESSAGES["llm_error"]`.  (`results` is also re-read there but
never used.) -/
def fallbackAnalysis (search_results : PyDict) (e : String) : String :=
  match pyGetD search_results ("total_hits") (Val.intV 0) with
  | Val.intV n =>
      if 0 < n then
        ("Found ") ++ (toString n ++ ((" results for your query. LLM analysis unavailable due to processing error: ") ++ pyTakeStr e 100))
      else noResultsMsg
  | Val.boolV b =>
      if b then
        ("Found ") ++ (("True") ++ ((" results for your query. LLM analysis unavailable due to processing error: ") ++ pyTakeStr e 100))
      else noResultsMsg
  | _ => llmErrorMsg

/-- `LLMService.process_results(original_query, search_results)`. -/
def processResults (backend : String → Except String String)
    (original_query : String) (search_results : PyDict) : String :=
  match narrationBody backend original_query search_results with
  | Except.ok s => s
  | Except.error e => fallbackAnalysis search_results e

/-! ## Shared dictionary lemmas -/

/-- Lookup distributes over append. -/
theorem pyLookup_append (d e : PyDict) (k : String) :
    pyLookup (d ++ e) k =
      match pyLookup d k with
      | some v => some v
      | none => pyLookup e k := by
  induction d with
  | nil => simp [pyLookup]
  | cons kv rest ih =>
      obtain ⟨k0, v0⟩ := kv
      by_cases h : k0 = k <;> simp [pyLookup, h, ih]

/-- `setdefault` of another key does not change a lookup. -/
theorem pyLookup_setdefault_ne (d : PyDict) (k0 k : String) (v : Val) (h : k0 ≠ k) :
    pyLookup (pySetdefault d k0 v) k = pyLookup d k := by
  unfold pySetdefault
  split
  · rfl
  · rw [pyLookup_append]
    cases hc : pyLookup d k <;> simp [pyLookup, h]

/-- Removing the bindings of one key does not change other lookups. -/
theorem pyLookup_filter_ne (d : PyDict) (k0 k : String) (h : k ≠ k0) :
    pyLookup (d.filter (fun kv => kv.1 ≠ k0)) k = pyLookup d k := by
  induction d with
  | nil => simp [pyLookup]
  | cons kv rest ih =>
      obtain ⟨ka, va⟩ := kv
      by_cases h1 : ka = k0
      · have h2 : ¬ ka = k := by
          intro e
          exact h (e ▸ h1)
        simp_all [List.filter_cons, pyLookup]
      · by_cases h2 : ka = k <;> simp_all [List.filter_cons, pyLookup]

/-- The filtered key itself is gone. -/
theorem pyLookup_filter_self (d : PyDict) (k0 : String) :
    pyLookup (d.filter (fun kv => kv.1 ≠ k0)) k0 = none := by
  induction d with
  | nil => simp [pyLookup]
  | cons kv rest ih =>
      obtain ⟨ka, va⟩ := kv
      by_cases h1 : ka = k0 <;> simp_all [List.filter_cons, pyLookup]

/-- Item assignment under another key does not change a lookup. -/
theorem pyLookup_assign_ne (d : PyDict) (k0 k : String) (v : Val) (h : k0 ≠ k) :
    pyLookup (pyAssign d k0 v) k = pyLookup d k := by
  induction d with
  | nil => simp [pyAssign, pyLookup, h]
  | cons kv rest ih =>
      obtain ⟨ka, va⟩ := kv
      by_cases h1 : ka = k0 <;> by_cases h2 : ka = k <;>
        simp_all [pyAssign, pyLookup]

/-- C1 (counterexample).  A refined request carrying `size: 999` reaches
the engine with the `size` key still inside the effective sent body on
the natural-language path: the pagination key is not stripped. -/
theorem size_key_survives_natural_path :
    pyLookup (naturalSearchSent
        [(("index"), Val.strV ("blog-users")), (("query"), Val.objV []), (("size"), Val.intV 999)]
        10).1 ("size")
      = some (Val.intV 999) := rfl

/-- C1 (amended).  Pagination keys are not stripped by the Search
Executor: on the natural-language path the effective sent body binds
`size`/`from` exactly as the refined request does (only `index` is
removed).  Only the direct structured endpoint removes `size` from its
sent body — and even there `from` passes through. -/
theorem pagination_keys_pass_through (refined q : PyDict) (size : Int) :
    pyLookup (naturalSearchSent refined size).1 ("size") = pyLookup refined ("size")
    ∧ pyLookup (naturalSearchSent refined size).1 ("from") = pyLookup refined ("from")
    ∧ pyLookup (elasticsearchSearchSent q size).1 ("size") = none
    ∧ pyLookup (elasticsearchSearchSent q size).1 ("from") = pyLookup q ("from") := by
  refine ⟨?_, ?_, ?_, ?_⟩
  · unfold naturalSearchSent searchPrep extractEsQuery
    rw [pyLookup_setdefault_ne _ _ _ _ (by decide)]
    exact pyLookup_filter_ne refined ("index") ("size") (by decide)
  · unfold naturalSearchSent searchPrep extractEsQuery
    rw [pyLookup_setdefault_ne _ _ _ _ (by decide)]
    exact pyLookup_filter_ne refined ("index") ("from") (by decide)
  · unfold elasticsearchSearchSent searchPrep elasticsearchSearchBody
    rw [pyLookup_setdefault_ne _ _ _ _ (by decide)]
    cases hq : pyLookup q ("size") with
    | none =>
        have hc : pyContains q ("size") = false := by simp [pyContains, hq]
        rw [if_neg (by simp [hc])]
        exact hq
    | some v =>
        have hc : pyContains q ("size") = true := by simp [pyContains, hq]
        rw [if_pos hc]
        exact pyLookup_filter_self q ("size")
  · unfold elasticsearchSearchSent searchPrep elasticsearchSearchBody
    rw [pyLookup_setdefault_ne _ _ _ _ (by decide)]
    cases hq : pyLookup q ("size") with
    | none =>
        have hc : pyContains q ("size") = false := by simp [pyContains, hq]
        rw [if_neg (by simp [hc])]
    | some v =>
        have hc : pyContains q ("size") = true := by simp [pyContains, hq]
        rw [if_pos hc]
        exact pyLookup_filter_ne q ("size") ("from") (by decide)

/-- C2.  In `SearchService.search`, the effective size is the
body-embedded `size` when present, otherwise the `size` parameter: the
body value always wins. -/
theorem body_size_wins (query : PyDict) (size : Int) :
    (∀ v, pyLookup query ("size") = some v → (searchPrep query size).2 = v)
    ∧ (pyLookup query ("size") = none → (searchPrep query size).2 = Val.intV size) := by
  have hbody : pyLookup (pySetdefault query ("track_total_hits") (Val.boolV true)) ("size")
      = pyLookup query ("size") :=
    pyLookup_setdefault_ne _ _ _ _ (by decide)
  constructor
  · intro v hv
    unfold searchPrep
    simp [pyContains, hbody, hv]
  · intro hv
    unfold searchPrep
    simp [pyContains, hbody, hv]

/-- C2 (witness).  A body `size` of 999 with a caller-level size of 10
yields effective size 999. -/
theorem body_size_wins_witness :
    pyLookup [(("size"), Val.intV 999), (("query"), Val.objV [])] ("size") = some (Val.intV 999)
    ∧ (searchPrep [(("size"), Val.intV 999), (("query"), Val.objV [])] 10).2 = Val.intV 999 :=
  ⟨rfl, (body_size_wins [(("size"), Val.intV 999), (("query"), Val.objV [])] 10).1
      (Val.intV 999) rfl⟩

/-- C9 (counterexample).  A source document that itself carries a field
named `__meta` does not survive formatting: the metadata side-channel
overwrites it (original value `0`, formatted value the metadata block). -/
theorem meta_key_overwritten :
    pyLookup (formatHit [(("_source"), Val.objV [(("__meta"), Val.intV 0)])]) ("__meta")
      ≠ some (Val.intV 0) := by
  intro h
  have h2 := Option.some.inj h
  cases h2

/-- C9 (amended).  Formatting preserves every field of the hit's source
document except a field literally named `__meta`, which the metadata
side-channel block overwrites; documents without a `__meta` field (none
of this system's document models define one) are preserved in full. -/
theorem format_preserves_other_fields (h : PyDict) (src : PyDict) (k : String)
    (hsrc : pyLookup h ("_source") = some (Val.objV src)) (hk : k ≠ ("__meta")) :
    pyLookup (formatHit h) k = pyLookup src k := by
  unfold formatHit
  simp only [hsrc]
  exact pyLookup_assign_ne src ("__meta") k _ (Ne.symm hk)

/-- C9 (witness).  A concrete hit whose source binds `title` keeps that
binding after formatting. -/
theorem format_preserves_other_fields_witness :
    pyLookup [(("_source"), Val.objV [(("title"), Val.strV ("t"))]), (("_id"), Val.strV ("1"))]
        ("_source") = some (Val.objV [(("title"), Val.strV ("t"))])
    ∧ (("title" : String) ≠ ("__meta"))
    ∧ pyLookup (formatHit [(("_source"), Val.objV [(("title"), Val.strV ("t"))]), (("_id"), Val.strV ("1"))])
        ("title") = pyLookup [(("title"), Val.strV ("t"))] ("title") :=
  ⟨rfl, by decide,
    format_preserves_other_fields
      [(("_source"), Val.objV [(("title"), Val.strV ("t"))]), (("_id"), Val.strV ("1"))]
      [(("title"), Val.strV ("t"))] ("title") rfl (by decide)⟩

/-- C10.  `SearchService.search` never mutates the caller's query dict:
after the body-preparation steps the cell the caller holds is unchanged
(the copy at a fresh address received all writes). -/
theorem search_does_not_mutate_query (h : Heap) (a : Nat) (size : Int) (ha : a < h.length) :
    heapGet (searchBodyPrepHeap h a size).1 a = heapGet h a := by
  unfold searchBodyPrepHeap heapAllocCopy heapSetdefault heapGet
  simp only
  rw [List.getElem?_set_ne (by omega), List.getElem?_append, if_pos ha]

/-- C10 (witness).  A concrete one-cell heap: the caller's dict (which
even lacks `track_total_hits`) is bit-for-bit unchanged. -/
theorem search_does_not_mutate_query_witness :
    0 < ([[(("query"), Val.objV [])]] : Heap).length
    ∧ heapGet (searchBodyPrepHeap [[(("query"), Val.objV [])]] 0 10).1 0
        = heapGet [[(("query"), Val.objV [])]] 0 :=
  ⟨by decide, search_does_not_mutate_query [[(("query"), Val.objV [])]] 0 10 (by decide)⟩

/-- C7.  A zero-hit search response makes `process_results` return the
fixed no-results message before any backend call: the outcome is
identical under every backend. -/
theorem zero_hits_fixed_message (b1 b2 : String → Except String String) (q : String)
    (sr : PyDict) (h : pyLookup sr ("total_hits") = some (Val.intV 0)) :
    processResults b1 q sr = noResultsMsg
    ∧ processResults b1 q sr = processResults b2 q sr := by
  have hbody : ∀ b : String → Except String String,
      narrationBody b q sr = Except.ok noResultsMsg := by
    intro b
    unfold narrationBody
    simp [pyGetD, h, pyEqZero]
  constructor
  · unfold processResults
    rw [hbody b1]
  · unfold processResults
    rw [hbody b1, hbody b2]

/-- C7 (witness).  Concrete zero-hit response under two backends that
disagree (one succeeds, one raises). -/
theorem zero_hits_fixed_message_witness :
    pyLookup [(("total_hits"), Val.intV 0)] ("total_hits") = some (Val.intV 0)
    ∧ processResults (fun _ => Except.ok ("A")) ("q") [(("total_hits"), Val.intV 0)] = noResultsMsg
    ∧ processResults (fun _ => Except.ok ("A")) ("q") [(("total_hits"), Val.intV 0)]
        = processResults (fun _ => Except.error ("B")) ("q") [(("total_hits"), Val.intV 0)] :=
  ⟨rfl,
   (zero_hits_fixed_message (fun _ => Except.ok ("A")) (fun _ => Except.error ("B")) ("q")
      [(("total_hits"), Val.intV 0)] rfl).1,
   (zero_hits_fixed_message (fun _ => Except.ok ("A")) (fun _ => Except.error ("B")) ("q")
      [(("total_hits"), Val.intV 0)] rfl).2⟩

/-- C8.  Any fault inside the narration body (model call, cleaning,
serialization) is absorbed: `process_results` returns the deterministic
fallback string built from the hit count (and a truncated error note),
never propagating the exception. -/
theorem narration_fault_fallback (backend : String → Except String String) (q : String)
    (sr : PyDict) (n : Int) (e : String)
    (hn : pyLookup sr ("total_hits") = some (Val.intV n)) (hpos : 0 < n)
    (hfault : narrationBody backend q sr = Except.error e) :
    processResults backend q sr =
      ("Found ") ++ (toString n ++
        ((" results for your query. LLM analysis unavailable due to processing error: ")
          ++ pyTakeStr e 100)) := by
  unfold processResults
  rw [hfault]
  unfold fallbackAnalysis
  simp [pyGetD, hn, hpos]

/-- C8 (witness).  A backend that always raises on a two-hit response
yields the deterministic fallback string. -/
theorem narration_fault_fallback_witness :
    pyLookup [(("total_hits"), Val.intV 2), (("results"), Val.arrV [])] ("total_hits")
      = some (Val.intV 2)
    ∧ (0 : Int) < 2
    ∧ narrationBody (fun _ => Except.error ("boom")) ("q")
        [(("total_hits"), Val.intV 2), (("results"), Val.arrV [])] = Except.error ("boom")
    ∧ processResults (fun _ => Except.error ("boom")) ("q")
        [(("total_hits"), Val.intV 2), (("results"), Val.arrV [])]
      = ("Found ") ++ (toString (2 : Int) ++
          ((" results for your query. LLM analysis unavailable due to processing error: ")
            ++ pyTakeStr ("boom") 100)) :=
  ⟨rfl, by decide, rfl,
   narration_fault_fallback (fun _ => Except.error ("boom")) ("q")
     [(("total_hits"), Val.intV 2), (("results"), Val.arrV [])] 2 ("boom")
     rfl (by decide) rfl⟩

/-- C5.  A missing or unparsable mapping file (`none` content) loads as a
digest with an empty field set, and rendering that empty digest returns
the plain header row without raising. -/
theorem missing_mapping_empty_digest (name : String) :
    (from_file none).fields = []
    ∧ (cheatsheet (from_file none) name).2 = name ++ (" (fields: )") := by
  constructor
  · rfl
  · rfl

/-! ## Field-map lemmas for the cheatsheet claims -/

/-- Lookup distributes over append (field maps). -/
theorem strLookup_append (d e : StrDict) (k : String) :
    strLookup (d ++ e) k =
      match strLookup d k with
      | some v => some v
      | none => strLookup e k := by
  induction d with
  | nil => simp [strLookup]
  | cons kv rest ih =>
      obtain ⟨k0, v0⟩ := kv
      by_cases h : k0 = k <;> simp [strLookup, h, ih]

/-- An existing binding survives any `setdefault`. -/
theorem strLookup_setdefault_some (d : StrDict) (k0 v0 k v : String)
    (h : strLookup d k = some v) :
    strLookup (strSetdefault d k0 v0) k = some v := by
  unfold strSetdefault
  split
  · exact h
  · rw [strLookup_append, h]

/-- `setdefault` of another key does not change a lookup (field maps). -/
theorem strLookup_setdefault_ne (d : StrDict) (k0 k : String) (v : String) (h : k ≠ k0) :
    strLookup (strSetdefault d k0 v) k = strLookup d k := by
  unfold strSetdefault
  split
  · rfl
  · rw [strLookup_append]
    cases hc : strLookup d k <;> simp [strLookup, Ne.symm h]

/-- Membership of another key is unchanged by `setdefault`. -/
theorem strContains_setdefault_ne (d : StrDict) (k0 k : String) (v : String) (h : k ≠ k0) :
    strContains (strSetdefault d k0 v) k = strContains d k := by
  unfold strContains
  rw [strLookup_setdefault_ne d k0 k v h]

/-- `setdefault` makes its key present. -/
theorem strContains_setdefault_self (d : StrDict) (k : String) (v : String) :
    strContains (strSetdefault d k v) k = true := by
  unfold strSetdefault
  split
  · assumption
  · unfold strContains
    rw [strLookup_append]
    cases hc : strLookup d k <;> simp [strLookup]

/-- Present keys stay present through any `setdefault`. -/
theorem strContains_setdefault_mono (d : StrDict) (k0 v0 k : String)
    (h : strContains d k = true) :
    strContains (strSetdefault d k0 v0) k = true := by
  unfold strContains at h ⊢
  cases hc : strLookup d k with
  | none => rw [hc] at h; simp at h
  | some v => rw [strLookup_setdefault_some d k0 v0 k v hc]; rfl

/-- `setdefault` of a present key is a no-op. -/
theorem strSetdefault_no_op (d : StrDict) (k v : String) (h : strContains d k = true) :
    strSetdefault d k v = d := by
  unfold strSetdefault
  rw [if_pos h]

/-- Counting distributes over append. -/
theorem countKey_append (d e : StrDict) (k : String) :
    countKey k (d ++ e) = countKey k d + countKey k e := by
  simp [countKey, List.countP_append]

/-- A present key appears among the keys. -/
theorem mem_keys_of_contains (d : StrDict) (k : String) (h : strContains d k = true) :
    k ∈ d.map Prod.fst := by
  induction d with
  | nil => simp [strContains, strLookup] at h
  | cons kv rest ih =>
      obtain ⟨k0, v0⟩ := kv
      by_cases hk : k0 = k
      · simp [hk]
      · have h' : strContains rest k = true := by
          simpa [strContains, strLookup, hk] using h
        simp [ih h']

/-- Count of an absent key is zero. -/
theorem countKey_eq_zero_of_not_contains (d : StrDict) (k : String)
    (h : strContains d k = false) :
    countKey k d = 0 := by
  induction d with
  | nil => rfl
  | cons kv rest ih =>
      obtain ⟨k0, v0⟩ := kv
      by_cases hk : k0 = k
      · exfalso
        simp [strContains, strLookup, hk] at h
      · have h' : strContains rest k = false := by
          simpa [strContains, strLookup, hk] using h
        have hz := ih h'
        simp only [countKey, List.countP_cons] at hz ⊢
        simp [hk, hz]

/-- A present key is counted at least once. -/
theorem countKey_pos_of_contains (d : StrDict) (k : String)
    (h : strContains d k = true) :
    1 ≤ countKey k d := by
  induction d with
  | nil => simp [strContains, strLookup] at h
  | cons kv rest ih =>
      obtain ⟨k0, v0⟩ := kv
      by_cases hk : k0 = k
      · simp [countKey, List.countP_cons, hk]
      · have h' : strContains rest k = true := by
          simpa [strContains, strLookup, hk] using h
        have := ih h'
        simp only [countKey, List.countP_cons] at *
        omega

/-- With pairwise-distinct keys (a real Python dict) every key is bound
at most once. -/
theorem countKey_le_one_of_nodup (d : StrDict) (k : String)
    (h : (d.map Prod.fst).Nodup) :
    countKey k d ≤ 1 := by
  induction d with
  | nil => simp [countKey]
  | cons kv rest ih =>
      obtain ⟨k0, v0⟩ := kv
      simp only [List.map_cons, List.nodup_cons] at h
      by_cases hk : k0 = k
      · have hz : countKey k rest = 0 := by
          apply countKey_eq_zero_of_not_contains
          cases hc : strContains rest k
          · rfl
          · exact absurd (mem_keys_of_contains rest k hc) (hk ▸ h.1)
        simp only [countKey, List.countP_cons] at hz ⊢
        simp [hk, hz]
      · have := ih h.2
        simp only [countKey, List.countP_cons] at *
        have hbeq : (k0 == k) = false := by simp [hk]
        simp only [hbeq, if_false, Bool.false_eq_true]
        omega

/-- Stable insertion permutes. -/
theorem insStable_perm (x : String × String) (l : List (String × String)) :
    (insStable x l).Perm (x :: l) := by
  induction l with
  | nil => exact List.Perm.refl _
  | cons y ys ih =>
      unfold insStable
      split
      · exact List.Perm.refl _
      · exact (ih.cons y).trans (List.Perm.swap x y ys)

/-- The cheatsheet ordering permutes the field map. -/
theorem sortFields_perm (l : List (String × String)) :
    (sortFields l).Perm l := by
  induction l with
  | nil => exact List.Perm.refl _
  | cons x xs ih => exact (insStable_perm x (sortFields xs)).trans (ih.cons x)

/-- Counting a key is invariant under the cheatsheet ordering. -/
theorem countKey_cheatsheetOrdered (f : StrDict) (k : String) :
    countKey k (cheatsheetOrdered f) = countKey k (cheatsheetFields f) := by
  unfold cheatsheetOrdered countKey
  exact (sortFields_perm (cheatsheetFields f)).countP_eq _

/-- One guarded keyword-synthesis step keeps existing bindings. -/
theorem step_preserves (g : StrDict) (b kw : String) (k v : String)
    (h : strLookup g k = some v) :
    strLookup (if strContains g b then strSetdefault g kw ("keyword") else g) k = some v := by
  split
  · exact strLookup_setdefault_some g kw ("keyword") k v h
  · exact h

/-- One step does not change membership of other keys. -/
theorem step_contains_ne (g : StrDict) (b kw k : String) (h : k ≠ kw) :
    strContains (if strContains g b then strSetdefault g kw ("keyword") else g) k
      = strContains g k := by
  split
  · exact strContains_setdefault_ne g kw k ("keyword") h
  · rfl

/-- One step keeps present keys present. -/
theorem step_contains_mono (g : StrDict) (b kw k : String)
    (h : strContains g k = true) :
    strContains (if strContains g b then strSetdefault g kw ("keyword") else g) k = true := by
  split
  · exact strContains_setdefault_mono g kw ("keyword") k h
  · exact h

/-- One step does not change the count of other keys. -/
theorem step_count_ne (g : StrDict) (b kw k : String) (h : k ≠ kw) :
    countKey k (if strContains g b then strSetdefault g kw ("keyword") else g)
      = countKey k g := by
  split
  · unfold strSetdefault
    split
    · rfl
    · rw [countKey_append]
      simp [countKey, List.countP_cons, Ne.symm h]
  · rfl

/-- When the base is present, after its step the sibling is bound exactly
once (given dict-unique keys). -/
theorem step_count_self (g : StrDict) (b kw : String) (hb : strContains g b = true)
    (hle : countKey kw g ≤ 1) :
    countKey kw (if strContains g b then strSetdefault g kw ("keyword") else g) = 1 := by
  rw [if_pos hb]
  unfold strSetdefault
  split
  · have h1 := countKey_pos_of_contains g kw (by assumption)
    omega
  · rename_i hc
    have hfalse : strContains g kw = false := by
      cases hx : strContains g kw
      · rfl
      · exact absurd hx hc
    have h0 : countKey kw g = 0 := countKey_eq_zero_of_not_contains g kw hfalse
    rw [countKey_append, h0]
    simp [countKey, List.countP_cons]

/-- The sibling is present after `cheatsheetFields` when `title` is. -/
theorem sibling_after_title (f : StrDict) (hb : strContains f ("title") = true) :
    strContains (cheatsheetFields f) ("title.keyword") = true := by
  unfold cheatsheetFields
  apply step_contains_mono
  apply step_contains_mono
  rw [if_pos hb]
  exact strContains_setdefault_self f ("title.keyword") ("keyword")

/-- The sibling is present after `cheatsheetFields` when `author_name` is. -/
theorem sibling_after_author (f : StrDict) (hb : strContains f ("author_name") = true) :
    strContains (cheatsheetFields f) ("author_name.keyword") = true := by
  unfold cheatsheetFields
  apply step_contains_mono
  have hc1 : strContains
      (if strContains f ("title") then strSetdefault f ("title.keyword") ("keyword") else f)
      ("author_name") = strContains f ("author_name") :=
    step_contains_ne f ("title") ("title.keyword") ("author_name") (by decide)
  rw [hc1, if_pos hb]
  exact strContains_setdefault_self _ ("author_name.keyword") ("keyword")

/-- The sibling is present after `cheatsheetFields` when `full_name` is. -/
theorem sibling_after_full (f : StrDict) (hb : strContains f ("full_name") = true) :
    strContains (cheatsheetFields f) ("full_name.keyword") = true := by
  simp only [cheatsheetFields]
  have hc1 : strContains
      (if strContains f ("title") then strSetdefault f ("title.keyword") ("keyword") else f)
      ("full_name") = strContains f ("full_name") :=
    step_contains_ne f ("title") ("title.keyword") ("full_name") (by decide)
  have hc2 : strContains
      (if strContains
            (if strContains f ("title") then strSetdefault f ("title.keyword") ("keyword") else f)
            ("author_name")
        then strSetdefault
            (if strContains f ("title") then strSetdefault f ("title.keyword") ("keyword") else f)
            ("author_name.keyword") ("keyword")
        else (if strContains f ("title") then strSetdefault f ("title.keyword") ("keyword") else f))
      ("full_name")
      = strContains
        (if strContains f ("title") then strSetdefault f ("title.keyword") ("keyword") else f)
        ("full_name") :=
    step_contains_ne _ ("author_name") ("author_name.keyword") ("full_name") (by decide)
  rw [hc2, hc1, if_pos hb]
  exact strContains_setdefault_self _ ("full_name.keyword") ("keyword")

/-- C4 (counterexample).  Rendering the cheatsheet mutates the digest: a
field map holding only `title` gains a `title.keyword` entry. -/
theorem cheatsheet_mutates_fields :
    (cheatsheet ⟨[(("title"), ("text"))], none, none⟩ ("blog-articles")).1.fields
      ≠ [(("title"), ("text"))] := by decide

/-- C4 (amended).  The digest's field map is not immutable under
rendering, but the mutation is growth-only and stable: `cheatsheet` may
append missing `*.keyword` siblings, never removes or rebinds an
existing field, and a second render leaves the field set unchanged. -/
theorem cheatsheet_growth_only (f : StrDict) :
    (∀ k v, strLookup f k = some v → strLookup (cheatsheetFields f) k = some v)
    ∧ cheatsheetFields (cheatsheetFields f) = cheatsheetFields f := by
  constructor
  · intro k v h
    unfold cheatsheetFields
    exact step_preserves _ _ _ _ _ (step_preserves _ _ _ _ _ (step_preserves _ _ _ _ _ h))
  · have htitle : strContains (cheatsheetFields f) ("title") = strContains f ("title") := by
      unfold cheatsheetFields
      rw [step_contains_ne _ _ _ _ (by decide), step_contains_ne _ _ _ _ (by decide),
        step_contains_ne _ _ _ _ (by decide)]
    have hauthor : strContains (cheatsheetFields f) ("author_name")
        = strContains f ("author_name") := by
      unfold cheatsheetFields
      rw [step_contains_ne _ _ _ _ (by decide), step_contains_ne _ _ _ _ (by decide),
        step_contains_ne _ _ _ _ (by decide)]
    have hfull : strContains (cheatsheetFields f) ("full_name")
        = strContains f ("full_name") := by
      unfold cheatsheetFields
      rw [step_contains_ne _ _ _ _ (by decide), step_contains_ne _ _ _ _ (by decide),
        step_contains_ne _ _ _ _ (by decide)]
    set g := cheatsheetFields f with hg
    have e1 : (if strContains g ("title") then strSetdefault g ("title.keyword") ("keyword") else g)
        = g := by
      by_cases c : strContains g ("title") = true
      · rw [if_pos c]
        apply strSetdefault_no_op
        rw [hg]
        exact sibling_after_title f (htitle.symm.trans c)
      · rw [if_neg c]
    have e2 : (if strContains g ("author_name")
          then strSetdefault g ("author_name.keyword") ("keyword") else g) = g := by
      by_cases c : strContains g ("author_name") = true
      · rw [if_pos c]
        apply strSetdefault_no_op
        rw [hg]
        exact sibling_after_author f (hauthor.symm.trans c)
      · rw [if_neg c]
    have e3 : (if strContains g ("full_name")
          then strSetdefault g ("full_name.keyword") ("keyword") else g) = g := by
      by_cases c : strContains g ("full_name") = true
      · rw [if_pos c]
        apply strSetdefault_no_op
        rw [hg]
        exact sibling_after_full f (hfull.symm.trans c)
      · rw [if_neg c]
    calc cheatsheetFields g = g := by
          simp only [cheatsheetFields]
          rw [e1, e2, e3]

/-- C4 (witness).  Concrete digest holding `title`: the binding survives
rendering and a second render changes nothing. -/
theorem cheatsheet_growth_only_witness :
    strLookup [(("title"), ("text"))] ("title") = some ("text")
    ∧ strLookup (cheatsheetFields [(("title"), ("text"))]) ("title") = some ("text")
    ∧ cheatsheetFields (cheatsheetFields [(("title"), ("text"))])
        = cheatsheetFields [(("title"), ("text"))] :=
  ⟨rfl,
   (cheatsheet_growth_only [(("title"), ("text"))]).1 ("title") ("text") rfl,
   (cheatsheet_growth_only [(("title"), ("text"))]).2⟩

/-- The `title` synthesis step of `cheatsheet` as a named function. -/
def stepTitle (g : StrDict) : StrDict :=
  if strContains g ("title") then strSetdefault g ("title.keyword") ("keyword") else g

/-- The `author_name` synthesis step of `cheatsheet`. -/
def stepAuthor (g : StrDict) : StrDict :=
  if strContains g ("author_name") then strSetdefault g ("author_name.keyword") ("keyword") else g

/-- The `full_name` synthesis step of `cheatsheet`. -/
def stepFull (g : StrDict) : StrDict :=
  if strContains g ("full_name") then strSetdefault g ("full_name.keyword") ("keyword") else g

/-- `cheatsheetFields` is the three steps in source order. -/
theorem cheatsheetFields_eq (f : StrDict) :
    cheatsheetFields f = stepFull (stepAuthor (stepTitle f)) := rfl

theorem stepTitle_contains_ne (g : StrDict) (k : String) (h : k ≠ ("title.keyword")) :
    strContains (stepTitle g) k = strContains g k :=
  step_contains_ne g ("title") ("title.keyword") k h

theorem stepTitle_count_ne (g : StrDict) (k : String) (h : k ≠ ("title.keyword")) :
    countKey k (stepTitle g) = countKey k g :=
  step_count_ne g ("title") ("title.keyword") k h

theorem stepTitle_count_self (g : StrDict) (hb : strContains g ("title") = true)
    (hle : countKey ("title.keyword") g ≤ 1) :
    countKey ("title.keyword") (stepTitle g) = 1 :=
  step_count_self g ("title") ("title.keyword") hb hle

theorem stepTitle_skip (g : StrDict) (hb : strContains g ("title") = false) :
    stepTitle g = g := by
  unfold stepTitle
  rw [if_neg (by simp [hb])]

theorem stepAuthor_contains_ne (g : StrDict) (k : String) (h : k ≠ ("author_name.keyword")) :
    strContains (stepAuthor g) k = strContains g k :=
  step_contains_ne g ("author_name") ("author_name.keyword") k h

theorem stepAuthor_count_ne (g : StrDict) (k : String) (h : k ≠ ("author_name.keyword")) :
    countKey k (stepAuthor g) = countKey k g :=
  step_count_ne g ("author_name") ("author_name.keyword") k h

theorem stepAuthor_count_self (g : StrDict) (hb : strContains g ("author_name") = true)
    (hle : countKey ("author_name.keyword") g ≤ 1) :
    countKey ("author_name.keyword") (stepAuthor g) = 1 :=
  step_count_self g ("author_name") ("author_name.keyword") hb hle

theorem stepAuthor_skip (g : StrDict) (hb : strContains g ("author_name") = false) :
    stepAuthor g = g := by
  unfold stepAuthor
  rw [if_neg (by simp [hb])]

theorem stepFull_contains_ne (g : StrDict) (k : String) (h : k ≠ ("full_name.keyword")) :
    strContains (stepFull g) k = strContains g k :=
  step_contains_ne g ("full_name") ("full_name.keyword") k h

theorem stepFull_count_ne (g : StrDict) (k : String) (h : k ≠ ("full_name.keyword")) :
    countKey k (stepFull g) = countKey k g :=
  step_count_ne g ("full_name") ("full_name.keyword") k h

theorem stepFull_count_self (g : StrDict) (hb : strContains g ("full_name") = true)
    (hle : countKey ("full_name.keyword") g ≤ 1) :
    countKey ("full_name.keyword") (stepFull g) = 1 :=
  step_count_self g ("full_name") ("full_name.keyword") hb hle

theorem stepFull_skip (g : StrDict) (hb : strContains g ("full_name") = false) :
    stepFull g = g := by
  unfold stepFull
  rw [if_neg (by simp [hb])]

/-- C6 (counterexample).  A mapping whose properties literally declare a
`title.keyword` field without a `title` base loads into a digest where
the base is absent, yet the rendered cheatsheet lists `title.keyword`
once — not zero times. -/
theorem keyword_listed_without_base :
    (from_file (some [(("mappings"), Val.objV [(("properties"),
        Val.objV [(("title.keyword"), Val.objV [(("type"), Val.strV ("keyword"))])])])])).fields
      = [(("title.keyword"), ("keyword"))]
    ∧ strContains [(("title.keyword"), ("keyword"))] ("title") = false
    ∧ countKey ("title.keyword") (cheatsheetOrdered [(("title.keyword"), ("keyword"))]) = 1 :=
  ⟨rfl, by decide, by decide⟩

/-- C6 (amended).  For a digest with dict-unique keys: each base field of
{title, author_name, full_name} present in the digest (in particular as a
plain text field) makes the rendered cheatsheet list its `*.keyword`
sibling exactly once — synthesis is deterministic and never duplicates an
already-present keyword entry; and the sibling appears zero times when
both the base field and the keyword sibling are absent from the digest
(an explicitly-mapped sibling without its base is listed even though the
base is missing). -/
theorem keyword_sibling_counts (f : StrDict) (hnd : (f.map Prod.fst).Nodup) :
    ((strContains f ("title") = true →
        countKey ("title.keyword") (cheatsheetOrdered f) = 1)
     ∧ (strContains f ("title") = false → strContains f ("title.keyword") = false →
        countKey ("title.keyword") (cheatsheetOrdered f) = 0))
    ∧ ((strContains f ("author_name") = true →
        countKey ("author_name.keyword") (cheatsheetOrdered f) = 1)
     ∧ (strContains f ("author_name") = false → strContains f ("author_name.keyword") = false →
        countKey ("author_name.keyword") (cheatsheetOrdered f) = 0))
    ∧ ((strContains f ("full_name") = true →
        countKey ("full_name.keyword") (cheatsheetOrdered f) = 1)
     ∧ (strContains f ("full_name") = false → strContains f ("full_name.keyword") = false →
        countKey ("full_name.keyword") (cheatsheetOrdered f) = 0)) := by
  have hord : ∀ k, countKey k (cheatsheetOrdered f)
      = countKey k (stepFull (stepAuthor (stepTitle f))) := by
    intro k
    rw [countKey_cheatsheetOrdered, cheatsheetFields_eq]
  refine ⟨⟨?_, ?_⟩, ⟨?_, ?_⟩, ⟨?_, ?_⟩⟩
  · intro c1
    rw [hord, stepFull_count_ne _ _ (by decide), stepAuthor_count_ne _ _ (by decide)]
    exact stepTitle_count_self f c1 (countKey_le_one_of_nodup f _ hnd)
  · intro c1 c2
    rw [hord, stepFull_count_ne _ _ (by decide), stepAuthor_count_ne _ _ (by decide),
      stepTitle_skip f c1]
    exact countKey_eq_zero_of_not_contains f _ c2
  · intro c1
    rw [hord, stepFull_count_ne _ _ (by decide)]
    refine stepAuthor_count_self (stepTitle f) ?_ ?_
    · rw [stepTitle_contains_ne f _ (by decide)]
      exact c1
    · rw [stepTitle_count_ne f _ (by decide)]
      exact countKey_le_one_of_nodup f _ hnd
  · intro c1 c2
    rw [hord, stepFull_count_ne _ _ (by decide)]
    rw [stepAuthor_skip (stepTitle f) (by
      rw [stepTitle_contains_ne f _ (by decide)]
      exact c1)]
    rw [stepTitle_count_ne f _ (by decide)]
    exact countKey_eq_zero_of_not_contains f _ c2
  · intro c1
    rw [hord]
    refine stepFull_count_self (stepAuthor (stepTitle f)) ?_ ?_
    · rw [stepAuthor_contains_ne _ _ (by decide), stepTitle_contains_ne f _ (by decide)]
      exact c1
    · rw [stepAuthor_count_ne _ _ (by decide), stepTitle_count_ne f _ (by decide)]
      exact countKey_le_one_of_nodup f _ hnd
  · intro c1 c2
    rw [hord]
    rw [stepFull_skip (stepAuthor (stepTitle f)) (by
      rw [stepAuthor_contains_ne _ _ (by decide), stepTitle_contains_ne f _ (by decide)]
      exact c1)]
    rw [stepAuthor_count_ne _ _ (by decide), stepTitle_count_ne f _ (by decide)]
    exact countKey_eq_zero_of_not_contains f _ c2

/-- C6 (witness).  Digest holding a plain `title` text field: the
rendered ordering lists `title.keyword` exactly once. -/
theorem keyword_sibling_counts_witness :
    (([(("title"), ("text"))] : StrDict).map Prod.fst).Nodup
    ∧ strContains [(("title"), ("text"))] ("title") = true
    ∧ countKey ("title.keyword") (cheatsheetOrdered [(("title"), ("text"))]) = 1 :=
  ⟨by decide, rfl,
   ((keyword_sibling_counts [(("title"), ("text"))] (by decide)).1).1 rfl⟩

/-! ## The doubled-brace collapse inverts template doubling

`doubleAll`/`doubleClose` are instances of doubling every character
satisfying a predicate; the two `replace` passes of the extractor remove
one level of doubling for their character. -/

/-- Double every character satisfying `P`. -/
def doubleBy (P : Char → Bool) : List Char → List Char
  | [] => []
  | c :: cs => if P c then c :: c :: doubleBy P cs else c :: doubleBy P cs

/-- `doubleBy` only depends on the predicate's values. -/
theorem doubleBy_congr (P Q : Char → Bool) (h : ∀ c, P c = Q c) (s : List Char) :
    doubleBy P s = doubleBy Q s := by
  induction s with
  | nil => rfl
  | cons c cs ih => simp [doubleBy, h c, ih]

/-- Doubling nothing is the identity. -/
theorem doubleBy_false (s : List Char) : doubleBy (fun _ => false) s = s := by
  induction s with
  | nil => rfl
  | cons c cs ih => simp [doubleBy, ih]

/-- `doubleAll` doubles braces. -/
theorem doubleAll_eq_doubleBy (s : List Char) :
    doubleAll s = doubleBy (fun c => decide (c = obChar) || decide (c = cbChar)) s := by
  induction s with
  | nil => rfl
  | cons c cs ih =>
      by_cases h1 : c = obChar
      · simp [doubleAll, doubleBy, h1, ih]
      · by_cases h2 : c = cbChar <;> simp [doubleAll, doubleBy, h1, h2, ih]

/-- `doubleClose` doubles closing braces. -/
theorem doubleClose_eq_doubleBy (s : List Char) :
    doubleClose s = doubleBy (fun c => decide (c = cbChar)) s := by
  induction s with
  | nil => rfl
  | cons c cs ih => by_cases h : c = cbChar <;> simp [doubleClose, doubleBy, h, ih]

/-- `pyReplaceAux` on any fuel leaves `[]` unchanged. -/
theorem replaceAux_nil (pat rep : List Char) (f : Nat) :
    pyReplaceAux pat rep f [] = [] := by
  cases f <;> rfl

/-- One `replace(aa, a)` pass over a `P`-doubled string (where `P a`
holds) un-doubles exactly the `a`s, scanning left to right. -/
theorem replace_undouble (a : Char) (P : Char → Bool) (hPa : P a = true) (s : List Char) :
    ∀ f, (doubleBy P s).length ≤ f →
    pyReplaceAux [a, a] [a] f (doubleBy P s)
      = doubleBy (fun c => P c && !(decide (c = a))) s := by
  induction s with
  | nil =>
      intro f _
      simp [doubleBy, replaceAux_nil]
  | cons c cs ih =>
      intro f hf
      by_cases hca : c = a
      · subst hca
        rw [show doubleBy P (c :: cs) = c :: c :: doubleBy P cs from by simp [doubleBy, hPa]] at hf ⊢
        cases f with
        | zero => simp only [List.length_cons] at hf; omega
        | succ f1 =>
            rw [pyReplaceAux, if_pos (by simp [isPre])]
            rw [show ((c :: c :: doubleBy P cs).drop ([c, c] : List Char).length)
                  = doubleBy P cs from rfl]
            rw [ih f1 (by simp only [List.length_cons] at hf; omega)]
            simp [doubleBy, hPa]
      · have hac : ¬ (a = c) := fun e => hca e.symm
        by_cases hPc : P c = true
        · rw [show doubleBy P (c :: cs) = c :: c :: doubleBy P cs
              from by simp [doubleBy, hPc]] at hf ⊢
          cases f with
          | zero => simp only [List.length_cons] at hf; omega
          | succ f1 =>
              cases f1 with
              | zero => simp only [List.length_cons] at hf; omega
              | succ f2 =>
                  rw [pyReplaceAux, if_neg (by simp [isPre, hac])]
                  rw [pyReplaceAux, if_neg (by simp [isPre, hac])]
                  rw [ih f2 (by simp only [List.length_cons] at hf; omega)]
                  simp [doubleBy, hPc, hca]
        · rw [show doubleBy P (c :: cs) = c :: doubleBy P cs
              from by simp [doubleBy, hPc]] at hf ⊢
          cases f with
          | zero => simp only [List.length_cons] at hf; omega
          | succ f1 =>
              rw [pyReplaceAux, if_neg (by simp [isPre, hac])]
              rw [ih f1 (by simp only [List.length_cons] at hf; omega)]
              simp [doubleBy, hPc, hca]

/-- The two `replace` passes of `collapseDoubles` recover the original
text from its fully brace-doubled form. -/
theorem collapse_doubleAll (s : List Char) :
    pyReplace (pyReplace (doubleAll s) ddOpen [obChar]) ddClose [cbChar] = s := by
  have hdo : ddOpen = [obChar, obChar] := rfl
  have hdc : ddClose = [cbChar, cbChar] := rfl
  have h1 : pyReplace (doubleAll s) ddOpen [obChar] = doubleClose s := by
    unfold pyReplace
    rw [hdo, doubleAll_eq_doubleBy,
      replace_undouble obChar (fun c => decide (c = obChar) || decide (c = cbChar))
        (by decide) s _ (le_refl _),
      doubleClose_eq_doubleBy]
    apply doubleBy_congr
    intro c
    by_cases h1 : c = obChar
    · by_cases h2 : c = cbChar
      · exact absurd (h1 ▸ h2) (by decide)
      · subst h1
        decide
    · by_cases h2 : c = cbChar
      · subst h2
        decide
      · simp [h1, h2]
  rw [h1]
  unfold pyReplace
  rw [hdc, doubleClose_eq_doubleBy,
    replace_undouble cbChar (fun c => decide (c = cbChar)) (by decide) s _ (le_refl _)]
  rw [doubleBy_congr (fun c => (decide (c = cbChar) : Bool) && !(decide (c = cbChar)))
    (fun _ => false) (fun c => by simp) s]
  exact doubleBy_false s

/-- Doubling introduces no new characters. -/
theorem mem_of_mem_doubleAll (c : Char) (s : List Char) (h : c ∈ doubleAll s) : c ∈ s := by
  induction s with
  | nil => simp [doubleAll] at h
  | cons x xs ih =>
      by_cases hx : x = obChar ∨ x = cbChar
      · rw [show doubleAll (x :: xs) = x :: x :: doubleAll xs
            from by rw [doubleAll, if_pos hx]] at h
        rcases List.mem_cons.mp h with h1 | h2
        · simp [h1]
        · rcases List.mem_cons.mp h2 with h3 | h4
          · simp [h3]
          · simp [ih h4]
      · rw [show doubleAll (x :: xs) = x :: doubleAll xs
            from by rw [doubleAll, if_neg hx]] at h
        rcases List.mem_cons.mp h with h1 | h2
        · simp [h1]
        · simp [ih h2]

/-- A fenced-block marker forces a backtick character in the text. -/
theorem containsSub_fence_mem (s : List Char) (h : containsSub s fenceTag = true) :
    btChar ∈ s := by
  induction s with
  | nil =>
      rw [show containsSub [] fenceTag = false from by decide] at h
      cases h
  | cons c cs ih =>
      simp only [containsSub, Bool.or_eq_true] at h
      rcases h with h1 | h2
      · rw [show fenceTag = btChar :: (("``json").toList) from by decide] at h1
        simp only [isPre, Bool.and_eq_true, decide_eq_true_eq] at h1
        rw [h1.1]
        exact List.mem_cons_self c cs
      · exact List.mem_cons_of_mem c (ih h2)

/-- Backtick-free text contains no fenced block. -/
theorem no_fence_of_no_backtick (s : List Char) (h : btChar ∉ s) :
    containsSub s fenceTag = false := by
  cases hc : containsSub s fenceTag
  · rfl
  · exact absurd (containsSub_fence_mem s hc) h

/-- `find` of the head character is 0. -/
theorem pyFindChar_head (c : Char) (r : List Char) : pyFindChar (c :: r) c = 0 := by
  simp [pyFindChar, pyFindCharNat]

/-- `rfind` of the final character is the last index. -/
theorem pyRfindChar_concat (x : List Char) (c : Char) :
    pyRfindChar (x ++ [c]) c = (x.length : Int) := by
  unfold pyRfindChar
  rw [show (x ++ [c]).reverse = c :: x.reverse from by simp]
  simp [pyFindCharNat, List.length_append]

/-- The full slice `s[0:len(s)]` is the whole string. -/
theorem pySlice_zero_len (t : List Char) : pySlice t 0 ((t.length : Int)) = t := by
  simp only [pySlice]
  rw [if_neg (lt_irrefl 0), if_neg (not_lt.mpr (Int.natCast_nonneg t.length))]
  rw [min_self, min_eq_left (Int.natCast_nonneg t.length)]
  simp

/-- On non-empty text with no fenced block, the extractor takes the
widest-brace-span branch. -/
theorem extractJson_no_fence (t : List Char) (hne : t.isEmpty = false)
    (hnf : containsSub t fenceTag = false) :
    extractJson t = genericExtract t := by
  unfold extractJson
  rw [if_neg (by simp [hne]), if_neg (by simp [hnf])]

/-- When the text starts with `\x7b` and ends with `\x7d`, the widest
brace span is the whole text. -/
theorem genericExtract_whole (t x r : List Char) (hhead : t = obChar :: r)
    (hlast : t = x ++ [cbChar]) :
    genericExtract t = jsonLoads (collapseDoubles t) := by
  have hfind : pyFindChar t obChar = 0 := by
    rw [hhead]
    exact pyFindChar_head obChar r
  have hrfind : pyRfindChar t cbChar = (x.length : Int) := by
    rw [hlast]
    exact pyRfindChar_concat x cbChar
  have hlen : ((x.length : Int)) + 1 = (t.length : Int) := by
    rw [hlast]
    simp
  simp only [genericExtract]
  rw [hfind, hrfind, hlen, pySlice_zero_len]

/-- Serialized objects start with an opening brace. -/
theorem serialize_obj_shape (fields : List (String × Val)) :
    serialize (Val.objV fields) = obChar :: (serMembers fields ++ [cbChar]) := rfl

/-- A non-empty member list serializes starting with a quote. -/
theorem serMembers_cons_head (k : String) (v : Val) (rest : List (String × Val)) :
    ∃ t, serMembers ((k, v) :: rest) = qChar :: t := by
  rw [serMembers, serStr]
  simp only [List.cons_append]
  exact ⟨_, rfl⟩

/-- A serialized object never starts with a doubled opening brace. -/
theorem isPre_ddOpen_serialize (fields : List (String × Val)) :
    isPre ddOpen (serialize (Val.objV fields)) = false := by
  cases fields with
  | nil => decide
  | cons kv rest =>
      obtain ⟨k, v⟩ := kv
      obtain ⟨t, ht⟩ := serMembers_cons_head k v rest
      rw [serialize_obj_shape, ht]
      have hne : ¬ (obChar = qChar) := by decide
      simp [isPre, ddOpen, List.cons_append, hne]

/-- Doubling distributes over append. -/
theorem doubleAll_append (a b : List Char) :
    doubleAll (a ++ b) = doubleAll a ++ doubleAll b := by
  induction a with
  | nil => simp [doubleAll]
  | cons c cs ih =>
      by_cases h : c = obChar ∨ c = cbChar
      · rw [List.cons_append, doubleAll, if_pos h, doubleAll, if_pos h, ih,
          List.cons_append, List.cons_append]
      · rw [List.cons_append, doubleAll, if_neg h, doubleAll, if_neg h, ih,
          List.cons_append]

/-- The doubled form of a serialized object. -/
theorem doubleAll_serialize_obj (fields : List (String × Val)) :
    doubleAll (serialize (Val.objV fields))
      = obChar :: obChar :: (doubleAll (serMembers fields) ++ [cbChar, cbChar]) := by
  rw [serialize_obj_shape]
  rw [show doubleAll (obChar :: (serMembers fields ++ [cbChar]))
        = obChar :: obChar :: doubleAll (serMembers fields ++ [cbChar])
      from by rw [doubleAll, if_pos (Or.inl rfl)]]
  rw [doubleAll_append]
  rw [show doubleAll [cbChar] = [cbChar, cbChar] from by decide]

/-- Text not starting with a doubled brace is left alone by the
collapse. -/
theorem collapseDoubles_not_doubled (t : List Char) (h : isPre ddOpen t = false) :
    collapseDoubles t = t := by
  unfold collapseDoubles
  rw [if_neg (by simp [h])]

/-- Suffix test against a trailing doubled closing brace. -/
theorem isSuf_ddClose_concat (y : List Char) :
    isSuf ddClose (y ++ [cbChar, cbChar]) = true := by
  unfold isSuf
  rw [show (ddClose : List Char).reverse = [cbChar, cbChar] from by decide]
  rw [show (y ++ [cbChar, cbChar]).reverse = cbChar :: cbChar :: y.reverse from by simp]
  simp [isPre]

/-- The collapse recovers a serialized object from its fully doubled
form. -/
theorem collapseDoubles_doubled (fields : List (String × Val)) :
    collapseDoubles (doubleAll (serialize (Val.objV fields)))
      = serialize (Val.objV fields) := by
  unfold collapseDoubles
  have hp : isPre ddOpen (doubleAll (serialize (Val.objV fields))) = true := by
    rw [doubleAll_serialize_obj]
    simp [isPre, ddOpen]
  have hs : isSuf ddClose (doubleAll (serialize (Val.objV fields))) = true := by
    rw [doubleAll_serialize_obj]
    rw [show obChar :: obChar :: (doubleAll (serMembers fields) ++ [cbChar, cbChar])
          = (obChar :: obChar :: doubleAll (serMembers fields)) ++ [cbChar, cbChar]
        from by simp]
    exact isSuf_ddClose_concat _
  rw [if_pos (by simp [hp, hs])]
  exact collapse_doubleAll _

/-- C3.  For a raw completion output that is a JSON object in fully
brace-doubled (template-escaped) form and free of backticks, the
Structured Extractor yields the same parse as on the unwrapped
equivalent: both reduce to `json.loads` of the undoubled text. -/
theorem extract_unwraps_doubled_braces (fields : List (String × Val))
    (hnb : btChar ∉ serialize (Val.objV fields)) :
    extractJson (doubleAll (serialize (Val.objV fields)))
      = extractJson (serialize (Val.objV fields)) := by
  have hne : (serialize (Val.objV fields)).isEmpty = false := by
    rw [serialize_obj_shape]
    rfl
  have hnb2 : btChar ∉ doubleAll (serialize (Val.objV fields)) :=
    fun hm => hnb (mem_of_mem_doubleAll btChar _ hm)
  have hdne : (doubleAll (serialize (Val.objV fields))).isEmpty = false := by
    rw [doubleAll_serialize_obj]
    rfl
  rw [extractJson_no_fence _ hdne (no_fence_of_no_backtick _ hnb2),
    extractJson_no_fence _ hne (no_fence_of_no_backtick _ hnb)]
  rw [genericExtract_whole (doubleAll (serialize (Val.objV fields)))
      ((obChar :: obChar :: doubleAll (serMembers fields)) ++ [cbChar])
      (obChar :: (doubleAll (serMembers fields) ++ [cbChar, cbChar]))
      (by rw [doubleAll_serialize_obj])
      (by rw [doubleAll_serialize_obj]; simp)]
  rw [genericExtract_whole (serialize (Val.objV fields))
      (obChar :: serMembers fields)
      (serMembers fields ++ [cbChar])
      (serialize_obj_shape fields)
      (by rw [serialize_obj_shape]; simp)]
  rw [collapseDoubles_doubled fields,
    collapseDoubles_not_doubled _ (isPre_ddOpen_serialize fields)]

/-- C3 (witness).  The scenario-4 raw text: doubled braces around a
minimal object; the extractor unwraps and parses it into the object with
`index = blog-users`. -/
theorem extract_unwraps_doubled_braces_witness :
    btChar ∉ serialize (Val.objV [(("index"), Val.strV ("blog-users"))])
    ∧ serialize (Val.objV [(("index"), Val.strV ("blog-users"))])
        = ("\x7b\"index\": \"blog-users\"\x7d").toList
    ∧ doubleAll (serialize (Val.objV [(("index"), Val.strV ("blog-users"))]))
        = ("\x7b\x7b\"index\": \"blog-users\"\x7d\x7d").toList
    ∧ extractJson (doubleAll (serialize (Val.objV [(("index"), Val.strV ("blog-users"))])))
        = extractJson (serialize (Val.objV [(("index"), Val.strV ("blog-users"))]))
    ∧ extractJson (serialize (Val.objV [(("index"), Val.strV ("blog-users"))]))
        = some (Val.objV [(("index"), Val.strV ("blog-users"))]) :=
  ⟨by decide, by decide, by decide,
   extract_unwraps_doubled_braces [(("index"), Val.strV ("blog-users"))] (by decide),
   rfl⟩
